import Mathlib

/-!
# The dummy media backend (`module/dummymedia.c`)

A shallow embedding of the placeholder media channel: every entry point of the
C file is a function of the same name over an explicit state, and the
host's sequence of calls is a list of `Call`s executed by `run`.

Conventions of the embedding
* a byte (`Uint8`) is a `Nat`; `memset` stores `c % 256`;
* a host buffer is the list of bytes that `stream` points to, and a store past
  its end is undefined behaviour, rendered as `none`;
* `int` is `Int`; the conversion of `len` to `size_t` is `% 2 ^ 64`;
* `double` is `ℚ`: the only double the module computes is the literal `1`,
  and the two it receives (`start`, `end`) are never inspected.
-/

namespace DummyMedia

/-! ## Data model -/

/-- An SDL surface, known to this module only through its address. -/
structure SDL_Surface where
  addr : Nat
deriving DecidableEq, Repr

/-- An SDL read/write source, known to this module only through its address. -/
structure SDL_RWops where
  addr : Nat
deriving DecidableEq, Repr

/-- The struct `MediaState` of the C file: one `int` field that no function reads or writes. -/
structure MediaState where
  dummy : Int
deriving DecidableEq, Repr

/-- The two file-level statics `rgb_surface` and `rgba_surface`. -/
structure Statics where
  rgb_surface : Option SDL_Surface
  rgba_surface : Option SDL_Surface
deriving DecidableEq, Repr

/-- Both statics are initialised to `NULL`. -/
def Statics.initial : Statics := ⟨none, none⟩

/-- A C `double`, read as its exact value. -/
abbrev Double := ℚ

/-- The state a host observes: the statics of the module and one open channel. -/
structure World where
  statics : Statics
  ms : MediaState
deriving DecidableEq, Repr

/-! ## The C library pieces the module calls -/

/-- Width of `size_t` in bits. -/
def SIZE_BITS : Nat := 64

/-- Conversion of an `int` argument to `size_t` (reduction modulo `2 ^ SIZE_BITS`). -/
def size_t_of_int (len : Int) : Nat := (len % 2 ^ SIZE_BITS).toNat

/-- The libc `memset(s, c, n)`: stores `(unsigned char) c` in each of the first `n` bytes of
the object `s`, one byte after another; running off the end of the object is undefined. -/
def memset : List Nat → Nat → Nat → Option (List Nat)
  | s, _, 0 => some s
  | [], _, _ + 1 => none
  | _ :: s, c, n + 1 => (memset s c n).map fun t => (c % 256) :: t

/-! ## The entry points of `dummymedia.c` -/

/-- Embeds `int media_video_ready(struct MediaState *ms) { return 0; }`. -/
def media_video_ready (_ms : MediaState) : Int := 0

/-- Embeds `SDL_Surface *media_read_video(MediaState *ms) { return NULL; }`. -/
def media_read_video (_ms : MediaState) : Option SDL_Surface := none

/-- Embeds `media_read_audio`: `memset(stream, 0, len); return len;`.
The result is the buffer after the call and the returned `int`. -/
def media_read_audio (_ms : MediaState) (stream : List Nat) (len : Int) :
    Option (List Nat × Int) :=
  match memset stream 0 (size_t_of_int len) with
  | none => none
  | some out => some (out, len)

/-- Embeds `void media_wait_ready(struct MediaState *ms) { }`. -/
def media_wait_ready (ms : MediaState) : MediaState := ms

/-- Embeds `double media_duration(MediaState *ms) { return 1; }`. -/
def media_duration (_ms : MediaState) : Double := 1

/-- Embeds `void media_start(MediaState *ms) { }`. -/
def media_start (ms : MediaState) : MediaState := ms

/-- Embeds `media_open`: `ms = malloc(sizeof(MediaState)); return ms;`.
The argument `malloc` is what the allocator hands back: `none` for `NULL`, otherwise a fresh
cell with unspecified contents. -/
def media_open (_rwops : SDL_RWops) (_filename : List Nat) (malloc : Option MediaState) :
    Option MediaState :=
  malloc

/-- Embeds `void media_start_end(MediaState *ms, double start, double end) { }`. -/
def media_start_end (ms : MediaState) (_start _end : Double) : MediaState := ms

/-- Embeds `void media_want_video(MediaState *ms, int video) { }`. -/
def media_want_video (ms : MediaState) (_video : Int) : MediaState := ms

/-- Embeds `void media_close(MediaState *ms) { }`. -/
def media_close (ms : MediaState) : MediaState := ms

/-- Embeds `void media_advance_time(void) { }`. -/
def media_advance_time (st : Statics) : Statics := st

/-- Embeds `void media_sample_surfaces(SDL_Surface *rgb, SDL_Surface *rgba) { }`. -/
def media_sample_surfaces (st : Statics) (_rgb _rgba : Option SDL_Surface) : Statics := st

/-- Embeds `void media_init(int rate, int status) { }`. -/
def media_init (st : Statics) (_rate _status : Int) : Statics := st

/-! ## Sequences of host calls -/

/-- One call of the host on the open channel (or on the module as a whole). -/
inductive Call where
  | video_ready
  | read_video
  | read_audio (stream : List Nat) (len : Int)
  | wait_ready
  | duration
  | start
  | start_end (start end_ : Double)
  | want_video (video : Int)
  | close
  | advance_time
  | sample_surfaces (rgb rgba : Option SDL_Surface)
  | init (rate status : Int)
deriving DecidableEq, Repr

/-- What a call hands back to the host. -/
inductive Ret where
  | void
  | int (v : Int)
  | double (v : Double)
  | surface (p : Option SDL_Surface)
  | audio (stream : List Nat) (ret : Int)
deriving DecidableEq, Repr

/-- A call has defined behaviour when it stores nothing outside the host's buffer. -/
def Call.defined : Call → Prop
  | .read_audio stream len => size_t_of_int len ≤ stream.length
  | _ => True

instance (c : Call) : Decidable c.defined := by
  cases c <;> unfold Call.defined <;> infer_instance

/-- Executes one call: the state after it and the value returned; `none` is undefined behaviour. -/
def step (w : World) : Call → Option (World × Ret)
  | .video_ready => some (w, .int (media_video_ready w.ms))
  | .read_video => some (w, .surface (media_read_video w.ms))
  | .read_audio stream len =>
    match media_read_audio w.ms stream len with
    | none => none
    | some (out, ret) => some (w, .audio out ret)
  | .wait_ready => some ({ w with ms := media_wait_ready w.ms }, .void)
  | .duration => some (w, .double (media_duration w.ms))
  | .start => some ({ w with ms := media_start w.ms }, .void)
  | .start_end s e => some ({ w with ms := media_start_end w.ms s e }, .void)
  | .want_video v => some ({ w with ms := media_want_video w.ms v }, .void)
  | .close => some ({ w with ms := media_close w.ms }, .void)
  | .advance_time => some ({ w with statics := media_advance_time w.statics }, .void)
  | .sample_surfaces rgb rgba =>
    some ({ w with statics := media_sample_surfaces w.statics rgb rgba }, .void)
  | .init rate status => some ({ w with statics := media_init w.statics rate status }, .void)

/-- Executes a sequence of calls in order, collecting what each returned. -/
def run (w : World) : List Call → Option (World × List Ret)
  | [] => some (w, [])
  | c :: cs =>
    match step w c with
    | none => none
    | some (w1, r) =>
      match run w1 cs with
      | none => none
      | some (w2, rs) => some (w2, r :: rs)

/-! ## Facts about the library pieces -/

theorem size_t_of_int_le (len : Int) (size : Nat) (h0 : 0 ≤ len) (hbuf : len ≤ size) :
    size_t_of_int len ≤ size := by
  simp only [size_t_of_int, SIZE_BITS]
  omega

theorem size_t_of_int_eq (len : Int) (h0 : 0 ≤ len) (hint : len < 2 ^ 31) :
    size_t_of_int len = len.toNat := by
  simp only [size_t_of_int, SIZE_BITS]
  omega

theorem memset_zero_count (s : List Nat) (c : Nat) : memset s c 0 = some s := by
  cases s <;> rfl

/-- Within the object, `memset` overwrites a prefix and keeps the rest. -/
theorem memset_eq (c : Nat) :
    ∀ (n : Nat) (s : List Nat), n ≤ s.length →
      memset s c n = some (List.replicate n (c % 256) ++ s.drop n) := by
  intro n
  induction n with
  | zero => intro s _; simp [memset_zero_count]
  | succ k ih =>
    intro s hs
    cases s with
    | nil => simp at hs
    | cons a t =>
      have hk : k ≤ t.length := by simpa using hs
      simp [memset, ih t hk, List.replicate_succ]

/-- Past the end of the object, `memset` is undefined. -/
theorem memset_none (c : Nat) :
    ∀ (n : Nat) (s : List Nat), s.length < n → memset s c n = none := by
  intro n
  induction n with
  | zero => intro s hs; simp at hs
  | succ k ih =>
    intro s hs
    cases s with
    | nil => rfl
    | cons a t =>
      have hk : t.length < k := by simpa using hs
      simp [memset, ih t hk]

/-- What a defined `memset` leaves in the object, byte by byte. -/
theorem memset_bytes (s : List Nat) (c n : Nat) (hn : n ≤ s.length) :
    ∃ out, memset s c n = some out ∧ out.length = s.length ∧
      (∀ i, i < n → out[i]? = some (c % 256)) ∧ (∀ i, n ≤ i → out[i]? = s[i]?) := by
  refine ⟨_, memset_eq c n s hn, ?_, ?_, ?_⟩
  · simp; omega
  · intro i hi
    rw [List.getElem?_append_left (by simpa using hi)]
    simp [List.getElem?_replicate, hi]
  · intro i hi
    rw [List.getElem?_append_right (by simpa using hi)]
    simp only [List.length_replicate, List.getElem?_drop]
    congr 1
    omega

/-! ## Facts about single calls and sequences -/

/-- A defined `media_read_audio` returns `len` and leaves memset's bytes in the buffer. -/
theorem media_read_audio_defined (ms : MediaState) (stream : List Nat) (len : Int)
    (h : size_t_of_int len ≤ stream.length) :
    ∃ out, media_read_audio ms stream len = some (out, len) ∧ out.length = stream.length ∧
      (∀ i, i < size_t_of_int len → out[i]? = some 0) ∧
      (∀ i, size_t_of_int len ≤ i → out[i]? = stream[i]?) := by
  obtain ⟨out, hout, hlen, hlt, hge⟩ := memset_bytes stream 0 (size_t_of_int len) h
  exact ⟨out, by simp [media_read_audio, hout], hlen, by simpa using hlt, hge⟩

/-- A defined call returns and leaves the state as it found it. -/
theorem step_defined (w : World) (c : Call) (h : c.defined) : ∃ r, step w c = some (w, r) := by
  cases c with
  | read_audio stream len =>
    obtain ⟨out, hout, -⟩ := media_read_audio_defined w.ms stream len h
    exact ⟨.audio out len, by simp [step, hout]⟩
  | _ => exact ⟨_, rfl⟩

/-- A sequence of defined calls returns, one result per call, and leaves the state as it
found it. -/
theorem run_defined (w : World) :
    ∀ calls : List Call, (∀ c ∈ calls, c.defined) →
      ∃ rs, run w calls = some (w, rs) ∧ rs.length = calls.length := by
  intro calls
  induction calls with
  | nil => intro _; exact ⟨[], rfl, rfl⟩
  | cons c cs ih =>
    intro h
    obtain ⟨r, hr⟩ := step_defined w c (h c (List.mem_cons_self c cs))
    obtain ⟨rs, hrs, hlen⟩ := ih fun d hd => h d (List.mem_cons_of_mem c hd)
    exact ⟨r :: rs, by simp [run, hr, hrs], by simp [hlen]⟩

/-- Running two sequences one after the other. -/
theorem run_append (w w1 w2 : World) (rs ss : List Ret) :
    ∀ (cs ds : List Call) , run w cs = some (w1, rs) → run w1 ds = some (w2, ss) →
      run w (cs ++ ds) = some (w2, rs ++ ss) := by
  intro cs
  induction cs generalizing w rs with
  | nil =>
    intro ds h1 h2
    simp only [run, Option.some.injEq, Prod.mk.injEq] at h1
    obtain ⟨rfl, rfl⟩ := h1
    simpa using h2
  | cons c cs ih =>
    intro ds h1 h2
    simp only [run] at h1
    cases hs : step w c with
    | none => simp [hs] at h1
    | some p =>
      obtain ⟨wa, r⟩ := p
      simp only [hs] at h1
      cases hr : run wa cs with
      | none => simp [hr] at h1
      | some q =>
        obtain ⟨wb, rs1⟩ := q
        simp only [hr, Option.some.injEq, Prod.mk.injEq] at h1
        obtain ⟨rfl, rfl⟩ := h1
        have := ih wa rs1 ds hr h2
        simp [run, hs, this]

/-- A sequence of defined calls followed by one more call whose step is known. -/
theorem run_then (w w1 : World) (calls : List Call) (c : Call) (r : Ret)
    (hcalls : ∀ d ∈ calls, d.defined) (hc : step w c = some (w1, r)) :
    ∃ rs, run w (calls ++ [c]) = some (w1, rs ++ [r]) ∧ rs.length = calls.length := by
  obtain ⟨rs, hrs, hlen⟩ := run_defined w calls hcalls
  refine ⟨rs, run_append w w w1 rs [r] calls [c] hrs ?_, hlen⟩
  simp [run, hc]

/-- A `media_close` in front of a sequence adds one `void` result and nothing else. -/
theorem run_close_cons (w : World) (calls : List Call) :
    run w (.close :: calls) = (run w calls).map fun p => (p.1, Ret.void :: p.2) := by
  have hs : step w .close = some (w, .void) := rfl
  cases h : run w calls with
  | none => simp [run, hs, h]
  | some q => obtain ⟨w2, rs⟩ := q; simp [run, hs, h]

/-! ## The claims -/

/-- C1: on every channel, after any sequence of defined calls (none, a `media_start`, any
number of `media_advance_time` ticks, ...), `media_read_audio(ms, stream, n)` with a
non-negative `n` that fits the buffer returns exactly `n`; this holds for every such `n`,
so in particular for the whole multiples of any frame size. -/
theorem read_audio_returns_len (w : World) (calls : List Call) (stream : List Nat) (n : Int)
    (hcalls : ∀ c ∈ calls, c.defined) (h0 : 0 ≤ n) (hbuf : n ≤ stream.length) :
    ∃ w1 rs out, run w (calls ++ [.read_audio stream n]) = some (w1, rs ++ [.audio out n]) ∧
      rs.length = calls.length := by
  obtain ⟨out, hout, -⟩ :=
    media_read_audio_defined w.ms stream n (size_t_of_int_le n stream.length h0 hbuf)
  have hstep : step w (.read_audio stream n) = some (w, .audio out n) := by simp [step, hout]
  obtain ⟨rs, hrs, hlen⟩ := run_then w w calls _ _ hcalls hstep
  exact ⟨w, rs, out, hrs, hlen⟩

theorem read_audio_returns_len_witness :
    ∃ w1 rs out,
      run ⟨Statics.initial, ⟨0⟩⟩
          ([.start, .advance_time, .advance_time] ++ [.read_audio [7, 7, 7, 7, 7, 7, 7, 7] 8])
        = some (w1, rs ++ [.audio out 8]) ∧
      rs.length = [Call.start, Call.advance_time, Call.advance_time].length :=
  read_audio_returns_len ⟨Statics.initial, ⟨0⟩⟩ [.start, .advance_time, .advance_time]
    [7, 7, 7, 7, 7, 7, 7, 7] 8 (by decide) (by decide) (by decide)

/-- C2: on a channel that `media_open` returned, after any sequence of defined calls,
`media_read_audio(ms, stream, n)` with `0 <= n`, `n` an `int` and a buffer of at least `n`
bytes returns `n` and leaves every byte `stream[i]`, `0 <= i < n`, equal to zero, whatever
the buffer held before. The module has no decoder, so no decoded data is ever available. -/
theorem read_audio_fills_silence (st : Statics) (rwops : SDL_RWops) (filename : List Nat)
    (malloc : Option MediaState) (ms : MediaState) (calls : List Call) (stream : List Nat)
    (n : Int) (hopen : media_open rwops filename malloc = some ms)
    (hcalls : ∀ c ∈ calls, c.defined) (h0 : 0 ≤ n) (hint : n < 2 ^ 31)
    (hbuf : n ≤ stream.length) :
    ∃ w1 rs out, run ⟨st, ms⟩ (calls ++ [.read_audio stream n]) = some (w1, rs ++ [.audio out n]) ∧
      rs.length = calls.length ∧ out.length = stream.length ∧
      ∀ i : Nat, (i : Int) < n → out[i]? = some 0 := by
  have _ := hopen
  obtain ⟨out, hout, hlen, hzero, -⟩ :=
    media_read_audio_defined ms stream n (size_t_of_int_le n stream.length h0 hbuf)
  have hstep : step ⟨st, ms⟩ (.read_audio stream n) = some (⟨st, ms⟩, .audio out n) := by
    simp [step, hout]
  obtain ⟨rs, hrs, hrlen⟩ := run_then ⟨st, ms⟩ ⟨st, ms⟩ calls _ _ hcalls hstep
  refine ⟨⟨st, ms⟩, rs, out, hrs, hrlen, hlen, fun i hi => hzero i ?_⟩
  rw [size_t_of_int_eq n h0 hint]
  omega

/-- The scenario of C2: `media_init(44100, 0)`, `media_open`, `media_start`, then
`media_read_audio` of `4 * 1024` bytes into a buffer full of `0xff`. -/
theorem read_audio_fills_silence_witness :
    media_open ⟨0⟩ [] (some ⟨0⟩) = some ⟨0⟩ ∧
    ∃ w1 rs out,
      run ⟨media_init Statics.initial 44100 0, ⟨0⟩⟩
          ([.start] ++ [.read_audio (List.replicate 4096 255) 4096])
        = some (w1, rs ++ [.audio out 4096]) ∧
      rs.length = [Call.start].length ∧ out.length = (List.replicate 4096 255).length ∧
      ∀ i : Nat, (i : Int) < 4096 → out[i]? = some 0 :=
  ⟨rfl, read_audio_fills_silence (media_init Statics.initial 44100 0) ⟨0⟩ [] (some ⟨0⟩) ⟨0⟩
    [.start] (List.replicate 4096 255) 4096 rfl (by decide) (by decide) (by decide)
    (by rw [List.length_replicate]; decide)⟩

/-- C3: on every channel, after any sequence of defined calls (`media_want_video` with any
argument or never called, `media_start_end`, `media_start`, `media_advance_time`,
`media_read_audio`, `media_read_video`, `media_close`, ...), `media_video_ready` returns 0;
in particular it does so whenever wants_video is false. -/
theorem video_ready_always_zero (w : World) (calls : List Call)
    (hcalls : ∀ c ∈ calls, c.defined) :
    ∃ w1 rs, run w (calls ++ [.video_ready]) = some (w1, rs ++ [.int 0]) ∧
      rs.length = calls.length ∧ media_video_ready w1.ms = 0 := by
  obtain ⟨rs, hrs, hlen⟩ := run_then w w calls .video_ready (.int 0) hcalls rfl
  exact ⟨w, rs, hrs, hlen, rfl⟩

theorem video_ready_always_zero_witness :
    ∃ w1 rs,
      run ⟨Statics.initial, ⟨0⟩⟩
          ([.want_video 0, .start_end 0 0, .start, .advance_time, .read_audio [5, 5] 2,
            .read_video, .close] ++ [.video_ready])
        = some (w1, rs ++ [.int 0]) ∧
      rs.length = [Call.want_video 0, .start_end 0 0, .start, .advance_time,
        .read_audio [5, 5] 2, .read_video, .close].length ∧
      media_video_ready w1.ms = 0 :=
  video_ready_always_zero ⟨Statics.initial, ⟨0⟩⟩
    [.want_video 0, .start_end 0 0, .start, .advance_time, .read_audio [5, 5] 2,
      .read_video, .close] (by decide)

/-- C4: in every channel state, if `media_video_ready(ms)` is false (0) then
`media_read_video(ms)` returns `NULL`, and so does an immediate second `media_read_video`. -/
theorem read_video_none_when_not_ready (w : World) (h : media_video_ready w.ms = 0) :
    media_read_video w.ms = none ∧
      run w [.read_video, .read_video] = some (w, [.surface none, .surface none]) := by
  have _ := h
  exact ⟨rfl, rfl⟩

theorem read_video_none_when_not_ready_witness :
    media_video_ready (World.mk Statics.initial ⟨0⟩).ms = 0 ∧
    media_read_video (World.mk Statics.initial ⟨0⟩).ms = none ∧
      run ⟨Statics.initial, ⟨0⟩⟩ [.read_video, .read_video]
        = some (⟨Statics.initial, ⟨0⟩⟩, [.surface none, .surface none]) :=
  ⟨rfl, read_video_none_when_not_ready ⟨Statics.initial, ⟨0⟩⟩ rfl⟩

/-- C5, refuted as stated: after `media_close` has returned, `media_read_audio`,
`media_read_video`, `media_video_ready` and `media_duration` all return normally (4 with a
zeroed buffer, `NULL`, 0 and 1); no call fails. -/
theorem calls_after_close_counterexample :
    run ⟨Statics.initial, ⟨0⟩⟩
        [.close, .read_audio [9, 9, 9, 9] 4, .read_video, .video_ready, .duration]
      = some (⟨Statics.initial, ⟨0⟩⟩,
          [.void, .audio [0, 0, 0, 0] 4, .surface none, .int 0, .double 1]) := by
  decide

/-- C5, amended: `media_close` leaves the channel as it was and records nothing, so the calls
after it yield their normal results: `media_read_audio` with an `int` `len`, `0 <= len` and a
buffer of at least `len` bytes returns `len`, sets the first `len` bytes of the buffer to zero
and keeps the rest of it, `media_read_video` returns `NULL`, `media_video_ready` returns 0
and `media_duration` returns 1. -/
theorem calls_after_close_normal (w : World) (stream : List Nat) (len : Int) (h0 : 0 ≤ len)
    (hint : len < 2 ^ 31) (hbuf : len ≤ stream.length) :
    media_close w.ms = w.ms ∧
    ∃ out, run w [.close, .read_audio stream len, .read_video, .video_ready, .duration]
        = some (w, [.void, .audio out len, .surface none, .int 0, .double 1]) ∧
      out.length = stream.length ∧
      (∀ i : Nat, (i : Int) < len → out[i]? = some 0) ∧
      (∀ i : Nat, len ≤ (i : Int) → out[i]? = stream[i]?) := by
  obtain ⟨out, hout, hlen, hzero, hkeep⟩ :=
    media_read_audio_defined w.ms stream len (size_t_of_int_le len stream.length h0 hbuf)
  have hsz : size_t_of_int len = len.toNat := size_t_of_int_eq len h0 hint
  have haudio : step w (.read_audio stream len) = some (w, .audio out len) := by
    simp [step, hout]
  have hrest : run w [.read_audio stream len, .read_video, .video_ready, .duration]
      = some (w, [.audio out len, .surface none, .int 0, .double 1]) := by
    simp only [run, haudio]
    rfl
  refine ⟨rfl, out, by rw [run_close_cons, hrest]; rfl, hlen, ?_, ?_⟩
  · intro i hi
    exact hzero i (by rw [hsz]; omega)
  · intro i hi
    exact hkeep i (by rw [hsz]; omega)

theorem calls_after_close_normal_witness :
    media_close (World.mk Statics.initial ⟨3⟩).ms = (World.mk Statics.initial ⟨3⟩).ms ∧
    ∃ out, run ⟨Statics.initial, ⟨3⟩⟩
          [.close, .read_audio [1, 2, 3] 2, .read_video, .video_ready, .duration]
        = some (⟨Statics.initial, ⟨3⟩⟩,
            [.void, .audio out 2, .surface none, .int 0, .double 1]) ∧
      out.length = [1, 2, 3].length ∧
      (∀ i : Nat, (i : Int) < 2 → out[i]? = some 0) ∧
      (∀ i : Nat, (2 : Int) ≤ (i : Int) → out[i]? = [1, 2, 3][i]?) :=
  calls_after_close_normal ⟨Statics.initial, ⟨3⟩⟩ [1, 2, 3] 2 (by decide) (by decide)
    (by decide)

/-- C6, refuted as stated: on a channel that was not started, `media_start_end(ms, 5, 2)`
(`end` non-zero and below `start`) completes like any other configuration. -/
theorem start_end_reversed_counterexample :
    (2 : Double) ≠ 0 ∧ (2 : Double) < 5 ∧
    run ⟨Statics.initial, ⟨0⟩⟩ [.start_end 5 2]
      = some (⟨Statics.initial, ⟨0⟩⟩, [.void]) ∧
    run ⟨Statics.initial, ⟨0⟩⟩ [.start_end 5 2]
      = run ⟨Statics.initial, ⟨0⟩⟩ [.start_end 2 5] := by
  refine ⟨by norm_num, by norm_num, rfl, rfl⟩

/-- C6, amended: for every channel and every `start` and `end` with `end` non-zero and
`end < start`, `media_start_end(ms, start, end)` completes normally and leaves the channel
unchanged: the window is neither checked nor stored. -/
theorem start_end_reversed_accepted (w : World) (start end_ : Double) (hne : end_ ≠ 0)
    (hlt : end_ < start) :
    step w (.start_end start end_) = some (w, .void) ∧
      media_start_end w.ms start end_ = w.ms := by
  have _ := hne
  have _ := hlt
  exact ⟨rfl, rfl⟩

theorem start_end_reversed_accepted_witness :
    (2 : Double) ≠ 0 ∧ (2 : Double) < 5 ∧
    step ⟨Statics.initial, ⟨0⟩⟩ (.start_end 5 2) = some (⟨Statics.initial, ⟨0⟩⟩, .void) ∧
      media_start_end (World.mk Statics.initial ⟨0⟩).ms 5 2
        = (World.mk Statics.initial ⟨0⟩).ms :=
  ⟨by norm_num, by norm_num,
    start_end_reversed_accepted ⟨Statics.initial, ⟨0⟩⟩ 5 2 (by norm_num) (by norm_num)⟩

/-- C7, refuted as stated: `media_start` followed by `media_start_end(ms, 2, 5)` completes
normally, both calls returning to the host. -/
theorem start_end_after_start_counterexample :
    run ⟨Statics.initial, ⟨0⟩⟩ [.start, .start_end 2 5]
      = some (⟨Statics.initial, ⟨0⟩⟩, [.void, .void]) := by
  decide

/-- C7, amended: on every channel on which `media_start` has been called, whatever defined
calls came after it, a subsequent `media_start_end(ms, start, end)` completes normally and
leaves the channel unchanged. -/
theorem start_end_after_start_accepted (w : World) (calls : List Call) (start end_ : Double)
    (hcalls : ∀ c ∈ calls, c.defined) :
    ∃ rs, run w (.start :: calls ++ [.start_end start end_]) = some (w, .void :: rs ++ [.void]) ∧
      rs.length = calls.length := by
  have hall : ∀ c ∈ Call.start :: calls, c.defined := by
    intro c hc
    rcases List.mem_cons.mp hc with rfl | hc
    · trivial
    · exact hcalls c hc
  obtain ⟨rs, hrs, hlen⟩ :=
    run_then w w (.start :: calls) (.start_end start end_) .void hall rfl
  cases rs with
  | nil => simp at hlen
  | cons r rs =>
    have hrun : run w (.start :: (calls ++ [.start_end start end_]))
        = some (w, r :: (rs ++ [.void])) := by simpa using hrs
    have hstart : step w .start = some (w, .void) := rfl
    simp only [run, hstart] at hrun
    cases htail : run w (calls ++ [.start_end start end_]) with
    | none => simp [htail] at hrun
    | some q =>
      obtain ⟨w2, ss⟩ := q
      simp only [htail, Option.some.injEq, Prod.mk.injEq, List.cons.injEq] at hrun
      obtain ⟨rfl, rfl, rfl⟩ := hrun
      refine ⟨rs, ?_, by simpa using hlen⟩
      simp [run, hstart, htail]

theorem start_end_after_start_accepted_witness :
    ∃ rs, run ⟨Statics.initial, ⟨0⟩⟩ (.start :: [.advance_time, .read_video] ++ [.start_end 2 5])
        = some (⟨Statics.initial, ⟨0⟩⟩, .void :: rs ++ [.void]) ∧
      rs.length = [Call.advance_time, Call.read_video].length :=
  start_end_after_start_accepted ⟨Statics.initial, ⟨0⟩⟩ [.advance_time, .read_video] 2 5
    (by decide)

/-- C8: `media_duration(ms)` returns the default 1, and the value is stable: on every
channel, it returns 1 before and again 1 after any sequence of defined calls
(`media_start_end` with any window, `media_start`, `media_advance_time`, `media_read_audio`,
`media_read_video`, ...). -/
theorem duration_default_stable (w : World) (calls : List Call)
    (hcalls : ∀ c ∈ calls, c.defined) :
    media_duration w.ms = 1 ∧
    ∃ w1 rs, run w (.duration :: calls ++ [.duration])
        = some (w1, .double 1 :: rs ++ [.double 1]) ∧
      rs.length = calls.length ∧ media_duration w1.ms = media_duration w.ms := by
  obtain ⟨rs, hrs, hlen⟩ := run_then w w calls .duration (.double 1) hcalls rfl
  have hd : step w .duration = some (w, .double 1) := rfl
  exact ⟨rfl, w, rs, by simp [run, hd, hrs], hlen, rfl⟩

theorem duration_default_stable_witness :
    media_duration (World.mk Statics.initial ⟨0⟩).ms = 1 ∧
    ∃ w1 rs, run ⟨Statics.initial, ⟨0⟩⟩
          (.duration :: [.start_end 2 5, .start, .advance_time, .read_audio [8, 8] 2,
            .read_video] ++ [.duration])
        = some (w1, .double 1 :: rs ++ [.double 1]) ∧
      rs.length = [Call.start_end 2 5, .start, .advance_time, .read_audio [8, 8] 2,
        .read_video].length ∧
      media_duration w1.ms = media_duration (World.mk Statics.initial ⟨0⟩).ms :=
  duration_default_stable ⟨Statics.initial, ⟨0⟩⟩
    [.start_end 2 5, .start, .advance_time, .read_audio [8, 8] 2, .read_video] (by decide)

/-- C9: `media_close` is idempotent: in every channel state, closing twice gives the state
that closing once gives, and every sequence of later calls (`media_video_ready`,
`media_read_video`, `media_read_audio`, `media_duration`, ...) ends in the same state with
the same results after two closes as after one. -/
theorem close_idempotent (w : World) (later : List Call) :
    media_close (media_close w.ms) = media_close w.ms ∧
    (step w .close).bind (fun p => step p.1 .close) = step w .close ∧
    (run w (.close :: .close :: later)).map (fun p => (p.1, p.2.drop 2))
      = (run w (.close :: later)).map (fun p => (p.1, p.2.drop 1)) := by
  refine ⟨rfl, rfl, ?_⟩
  rw [run_close_cons, run_close_cons]
  cases run w later with
  | none => rfl
  | some q => rfl

/-- C10: `media_read_audio(ms, stream, len)` with `0 <= len <= ` size of the buffer returns
`len`, keeps the size of the buffer and every byte at an index `>= len`, and leaves the
channel state unchanged; for `len = 0` the whole buffer is unchanged and the result is 0. -/
theorem read_audio_frame (w : World) (stream : List Nat) (len : Int) (h0 : 0 ≤ len)
    (hbuf : len ≤ stream.length) :
    ∃ out, step w (.read_audio stream len) = some (w, .audio out len) ∧
      out.length = stream.length ∧
      (∀ i : Nat, len ≤ (i : Int) → out[i]? = stream[i]?) ∧
      (len = 0 → out = stream ∧ media_read_audio w.ms stream len = some (stream, 0)) := by
  obtain ⟨out, hout, hlen, -, hge⟩ :=
    media_read_audio_defined w.ms stream len (size_t_of_int_le len stream.length h0 hbuf)
  have hsz : size_t_of_int len ≤ len.toNat := by
    simp only [size_t_of_int, SIZE_BITS]
    omega
  refine ⟨out, by simp [step, hout], hlen, fun i hi => hge i (by omega), ?_⟩
  intro hz
  subst hz
  have h1 : media_read_audio w.ms stream 0 = some (stream, 0) := by
    simp [media_read_audio, size_t_of_int, memset_zero_count]
  rw [h1] at hout
  simp only [Option.some.injEq, Prod.mk.injEq] at hout
  exact ⟨hout.1.symm, h1⟩

theorem read_audio_frame_witness :
    ∃ out, step ⟨Statics.initial, ⟨0⟩⟩ (.read_audio [4, 5, 6, 7] 2)
        = some (⟨Statics.initial, ⟨0⟩⟩, .audio out 2) ∧
      out.length = [4, 5, 6, 7].length ∧
      (∀ i : Nat, (2 : Int) ≤ (i : Int) → out[i]? = [4, 5, 6, 7][i]?) ∧
      ((2 : Int) = 0 → out = [4, 5, 6, 7] ∧
        media_read_audio (World.mk Statics.initial ⟨0⟩).ms [4, 5, 6, 7] 2
          = some ([4, 5, 6, 7], 0)) :=
  read_audio_frame ⟨Statics.initial, ⟨0⟩⟩ [4, 5, 6, 7] 2 (by decide) (by decide)

end DummyMedia
